import Mathlib

/-!
Shallow embedding of `mne/fiff/raw.py` (directory building in `Raw.__init__`,
`read_raw_segment`, `_update_projector` / `_hash_projs`, `Raw.save`,
`start_writing_raw`, `write_raw_buffer`) together with proofs about the
resulting definitions.

Conventions of the embedding:
* Python ints are `ℤ` (sizes and list indices are `ℕ`); Python 2 `/` on
  nonnegative ints is `Nat` division.
* numpy arrays of samples are lists of rationals; a `channels x samples`
  matrix is represented as the list of its columns (each column is the list
  of channel values of one sample), matching how `read_raw_segment` fills
  its destination column-block by column-block.
* Fallible code returns `Except RawErr`; an uncaught Python exception is an
  `Except.error` value (`RawErr` carries which exception), and returning
  `Except.error` from the open path models that no partial handle exists.
* The external collaborators `read_tag`, `array_hash` and `setup_proj` are
  not part of the source file: `read_tag` is a function `ℕ → Tag` stored in
  the state (the file handle), and `array_hash` / `setup_proj` are explicit
  parameters `aH` / `sP` of every operation that uses them (`setup_proj` is
  modelled from the spec, see `updateProjector`).
-/

/- The Batteries rational-number operations are `@[irreducible]`, which
blocks definitional evaluation of the embedding on concrete inputs; restore
the default reducibility so that witnesses can be checked by `decide`. -/
set_option allowUnsafeReducibility true in
attribute [semireducible] Rat.mul Rat.add Rat.sub Rat.inv

deriving instance DecidableEq for Except

namespace MneRaw

/-! ## The embedding

Data model and operations translated from `mne/fiff/raw.py`, followed by
the concrete oracles and handles used by the witnesses. -/

/-- Kind of a tag record in the container directory (`FIFF_FIRST_SAMPLE`,
`FIFF_DATA_SKIP`, `FIFF_DATA_BUFFER`, anything else). -/
inductive TagKind
  | firstSample
  | dataSkip
  | dataBuffer
  | other (code : ℤ)
deriving DecidableEq, Repr

/-- Value type of a data-buffer tag.  The five supported encodings of
`Raw.__init__` plus an escape constructor for every other type code. -/
inductive FiffValType
  | dauPack16
  | short16
  | float32
  | int32
  | complexFloat
  | otherT (code : ℤ)
deriving DecidableEq, Repr

/-- Bytes per (single-channel) sample for each supported encoding, as in the
five branches of `Raw.__init__`; `none` for an unsupported type. -/
def bytesPerSample : FiffValType → Option ℕ
  | .dauPack16 => some 2
  | .short16 => some 2
  | .float32 => some 4
  | .int32 => some 4
  | .complexFloat => some 8
  | .otherT _ => none

/-- One record of the container's tag directory (`directory[k]` in
`Raw.__init__`): kind, value type, byte size and locator. -/
structure DirEnt where
  kind : TagKind
  type : FiffValType
  size : ℕ
  pos : ℕ
deriving DecidableEq, Repr

/-- Errors of the embedded code.  Each constructor corresponds to one Python
exception site; `unsupported` records whether `fid.close()` ran before the
raise (it does, at line 145 of `raw.py`). -/
inductive RawErr
  | indexError
  | zeroDivision
  | unsupported (fidClosed : Bool)
  | noData
  | emptySel
  | bufferShape
  | reshapeError
  | shapeMismatch
  | dtypeUnbound
  | calsMismatch
  | identicalDest
deriving DecidableEq, Repr

/-- One entry of `raw.rawdir`: `dict(ent=..., first=..., last=..., nsamp=...)`.
`ent = none` is a skip run, `ent = some e` a real on-disk buffer. -/
structure RawDirEntry where
  ent : Option DirEnt
  first : ℤ
  last : ℤ
  nsamp : ℤ
deriving DecidableEq, Repr

/-- Mutable state of the directory-building loop in `Raw.__init__`:
`first_samp_attr` is the attribute `self.first_samp`, `cursor` the local
variable `first_samp` (the running absolute sample cursor), `first_skip`
and `nskip` the pending skip counts, `rawdir` the entries built so far. -/
structure ScanState where
  first_samp_attr : ℤ
  cursor : ℤ
  first_skip : ℤ
  nskip : ℤ
  rawdir : List RawDirEntry
deriving Repr

/-- Embeds `if first_skip > 0: first_samp += nsamp * first_skip; self.first_samp =
first_samp; first_skip = 0` (lines 150-153). -/
def stepFold (st : ScanState) (nsamp : ℤ) : ScanState :=
  if 0 < st.first_skip then
    { st with
        cursor := st.cursor + nsamp * st.first_skip
        first_samp_attr := st.cursor + nsamp * st.first_skip
        first_skip := 0 }
  else st

/-- Embeds `if nskip > 0: rawdir.append(dict(ent=None, ...)); first_samp += nskip *
nsamp; nskip = 0` (lines 156-161). -/
def stepSkip (st : ScanState) (nsamp : ℤ) : ScanState :=
  if 0 < st.nskip then
    { st with
        rawdir := st.rawdir ++
          [⟨none, st.cursor, st.cursor + st.nskip * nsamp - 1, st.nskip * nsamp⟩]
        cursor := st.cursor + st.nskip * nsamp
        nskip := 0 }
  else st

/-- Embeds `rawdir.append(dict(ent=ent, first=first_samp, last=first_samp + nsamp - 1,
nsamp=nsamp)); first_samp += nsamp` (lines 164-167). -/
def stepBuf (st : ScanState) (ent : DirEnt) (nsamp : ℤ) : ScanState :=
  { st with
      rawdir := st.rawdir ++ [⟨some ent, st.cursor, st.cursor + nsamp - 1, nsamp⟩]
      cursor := st.cursor + nsamp }

/-- Body of the `for k in range(first, nent)` loop of `Raw.__init__` for a
single directory record.  `tI` is `read_tag` restricted to integer payloads
(`int(tag.data)`).  Unsupported buffer types close the file and raise
(`RawErr.unsupported true`); a data buffer with `nchan = 0` raises Python's
`ZeroDivisionError`. -/
def processEnt (nchan : ℕ) (tI : ℕ → ℤ) (st : ScanState) (ent : DirEnt) :
    Except RawErr ScanState :=
  if ent.kind = .dataSkip then
    .ok { st with nskip := tI ent.pos }
  else if ent.kind = .dataBuffer then
    match bytesPerSample ent.type with
    | none => .error (.unsupported true)
    | some bps =>
      if nchan = 0 then .error .zeroDivision
      else
        let nsamp : ℤ := ((ent.size / (bps * nchan) : ℕ) : ℤ)
        .ok (stepBuf (stepSkip (stepFold st nsamp) nsamp) ent nsamp)
  else
    .ok st

/-- The remaining-tags loop of `Raw.__init__`. -/
def scanTags (nchan : ℕ) (tI : ℕ → ℤ) (st : ScanState) :
    List DirEnt → Except RawErr ScanState
  | [] => .ok st
  | e :: rest =>
    match processEnt nchan tI st e with
    | .error er => .error er
    | .ok st2 => scanTags nchan tI st2 rest

/-- Result of the directory-building phase of `Raw.__init__`:
`self.first_samp`, `self.last_samp` and `self.rawdir`. -/
structure RawOpenResult where
  first_samp : ℤ
  last_samp : ℤ
  rawdir : List RawDirEntry
deriving DecidableEq, Repr

/-- Run the remaining-tags scan from an initial state and package
`self.first_samp`, `self.last_samp = first_samp - 1` and `self.rawdir`. -/
def finishScan (nchan : ℕ) (tI : ℕ → ℤ) (fs fskip : ℤ) (rest : List DirEnt) :
    Except RawErr RawOpenResult :=
  match scanTags nchan tI ⟨fs, fs, fskip, 0, []⟩ rest with
  | .error er => .error er
  | .ok st => .ok ⟨st.first_samp_attr, st.cursor - 1, st.rawdir⟩

/-- Directory building in `Raw.__init__` (lines 101-169): consume an optional
first-sample tag, then an optional initial data-skip tag, then scan the
remaining records; finally `self.last_samp = first_samp - 1`.  Indexing an
absent `directory[first]` is Python's `IndexError`. -/
def buildRawDir (nchan : ℕ) (tI : ℕ → ℤ) (directory : List DirEnt) :
    Except RawErr RawOpenResult :=
  match directory with
  | [] => .error .indexError
  | e0 :: r0 =>
    if e0.kind = .firstSample then
      match r0 with
      | [] => .error .indexError
      | e1 :: r1 =>
        if e1.kind = .dataSkip then finishScan nchan tI (tI e0.pos) (tI e1.pos) r1
        else finishScan nchan tI (tI e0.pos) 0 (e1 :: r1)
    else
      if e0.kind = .dataSkip then finishScan nchan tI 0 (tI e0.pos) r0
      else finishScan nchan tI 0 0 (e0 :: r0)

/-- Statement that `l` is a contiguous chain of directory entries starting at absolute
sample `a` and ending just before absolute sample `c`. -/
def chainFrom : ℤ → List RawDirEntry → ℤ → Prop
  | a, [], c => c = a
  | a, e :: rest, c =>
      e.first = a ∧ 0 ≤ e.nsamp ∧ e.last = a + e.nsamp - 1 ∧ chainFrom (a + e.nsamp) rest c

/-- Invariant of the scan state: the entries built so far chain from
`self.first_samp` to the cursor, and a pending initial skip implies that no
entry has been emitted yet. -/
def ScanInv (st : ScanState) : Prop :=
  chainFrom st.first_samp_attr st.rawdir st.cursor ∧ (0 < st.first_skip → st.rawdir = [])

/-- The directory invariant stated by the spec: entries are sorted by
`first`, contiguous with neither overlap nor gap, each spans exactly
`nsamp` samples, the total sample count is `last_samp - first_samp + 1`,
the entries together span `[first_samp, last_samp]`, and an empty directory
has `last_samp = first_samp - 1`. -/
def dirSound (st : RawOpenResult) : Prop :=
  (∀ e ∈ st.rawdir, 0 ≤ e.nsamp ∧ e.last - e.first + 1 = e.nsamp) ∧
  List.Chain' (fun p q => q.first = p.last + 1) st.rawdir ∧
  List.Chain' (fun p q => p.first ≤ q.first) st.rawdir ∧
  (st.rawdir.map RawDirEntry.nsamp).sum = st.last_samp - st.first_samp + 1 ∧
  (∀ e, st.rawdir.head? = some e → e.first = st.first_samp) ∧
  (∀ e, st.rawdir.getLast? = some e → e.last = st.last_samp) ∧
  (st.rawdir = [] → st.last_samp = st.first_samp - 1)

/-- Concrete integer-tag oracle: first sample 10 at pos 0, initial skip 3 at
pos 1, mid-stream skip 2 at pos 3. -/
def tIw : ℕ → ℤ := fun p => if p = 0 then 10 else if p = 1 then 3 else if p = 3 then 2 else 0

/-- Concrete five-record tag directory: first-sample, data-skip, buffer,
data-skip, buffer (float32 buffers of 2 samples each at one channel). -/
def dirW : List DirEnt :=
  [⟨.firstSample, .int32, 4, 0⟩, ⟨.dataSkip, .int32, 4, 1⟩,
   ⟨.dataBuffer, .float32, 8, 2⟩, ⟨.dataSkip, .int32, 4, 3⟩,
   ⟨.dataBuffer, .float32, 8, 4⟩]

/-- The directory that `buildRawDir` produces from `dirW`. -/
def rawdirW : List RawDirEntry :=
  [⟨some ⟨.dataBuffer, .float32, 8, 2⟩, 16, 17, 2⟩,
   ⟨none, 18, 21, 4⟩,
   ⟨some ⟨.dataBuffer, .float32, 8, 4⟩, 22, 23, 2⟩]

/-- Numeric dtype chosen for a decoded buffer: `np.float` when
`np.isrealobj(tag.data)`, else `np.complex64`. -/
inductive DType
  | float64
  | complex64
deriving DecidableEq, Repr

/-- Payload of `read_tag` for a data buffer: whether the stored samples are
real-valued, and the flat sample list (length `nsamp * nchan`). -/
structure Tag where
  isReal : Bool
  data : List ℚ
deriving DecidableEq, Repr

/-- One channel record of `info['chs']`: its `range`, `cal` and `scanno`. -/
structure Chan where
  range : ℚ
  cal : ℚ
  scanno : ℕ
deriving DecidableEq, Repr

/-- One projection-vector definition of `info['projs']`: the raw numeric
payload `p['data']['data']` and the active flag. -/
structure Proj where
  data : List ℚ
  active : Bool
deriving DecidableEq, Repr

/-- The recording handle (the fields of `Raw` that the read and save paths
use).  `fid` is the open container: `read_tag(fid, pos)` is `fid pos`.
`comp` is `self.comp` (always `None` after `__init__`, but kept as state
because `read_raw_segment` branches on it), `projector` is
`self._projector`, `projector_hash` is `self._projector_hash`. -/
structure RawState where
  nchan : ℕ
  sfreq : ℚ
  filename : ℕ
  cals : List ℚ
  chs : List Chan
  first_samp : ℤ
  last_samp : ℤ
  rawdir : List RawDirEntry
  proj : Bool
  comp : Option (List (List ℚ))
  projs : List Proj
  projector : Option (List (List ℚ))
  projector_hash : List ℕ
  fid : ℕ → Tag

/-- Embeds `_hash_projs(projs, projector)`: the digest of every vector's raw
payload, plus the digest of the flattened operator when present.  `aH` is
the external `array_hash`. -/
def hashProjs (aH : List ℚ → ℕ) (projs : List Proj)
    (projector : Option (List (List ℚ))) : List ℕ :=
  projs.map (fun p => aH p.data) ++
    (match projector with
     | some m => [aH m.flatten]
     | none => [])

/-- Embeds `_update_projector(raw)`: recompute the hash; if it differs from the
stored one, rebuild the operator and rehash, returning `True`; otherwise
return `False` and leave the state unchanged.

`sP` is the external `setup_proj`.  Modelled from the spec: `setup_proj`
(the projection-math collaborator's `buildOperator(vectors)`) returns the
composed operator or none; the spec's interface takes the vectors and
returns only the operator, so `info['projs']` is unchanged by a rebuild. -/
def updateProjector (aH : List ℚ → ℕ) (sP : List Proj → Option (List (List ℚ)))
    (raw : RawState) : Bool × RawState :=
  let nh := hashProjs aH raw.projs raw.projector
  if nh = raw.projector_hash then (false, raw)
  else
    let op := sP raw.projs
    (true, { raw with projector := op, projector_hash := hashProjs aH raw.projs op })

/-- Row selection `M[idx, :]`; `idx = none` is the full slice `M[:]`. -/
def rowSel (idx : Option (List ℕ)) (M : List (List ℚ)) : List (List ℚ) :=
  match idx with
  | none => M
  | some l => l.map (fun i => M.getD i [])

/-- Selection of entries of a single column vector (`one[idx]` applied
columnwise). -/
def selVec (idx : Option (List ℕ)) (v : List ℚ) : List ℚ :=
  match idx with
  | none => v
  | some l => l.map (fun i => v.getD i 0)

/-- Embeds `np.diag(v)`. -/
def diagM (v : List ℚ) : List (List ℚ) :=
  (List.range v.length).map
    (fun i => (List.range v.length).map (fun j => if i = j then v.getD i 0 else 0))

/-- Embeds `np.dot` of a matrix (list of rows) with a column vector. -/
def matVec (A : List (List ℚ)) (v : List ℚ) : List ℚ :=
  A.map (fun r => (List.zipWith (fun x y => x * y) r v).sum)

/-- Number of columns of a list-of-rows matrix. -/
def colCount (B : List (List ℚ)) : ℕ := (B.headD []).length

/-- Embeds `np.dot(A, B)` for matrices as lists of rows; a shape mismatch between
the rows of `A` and the row count of `B` is numpy's `ValueError`. -/
def matMul (A B : List (List ℚ)) : Except RawErr (List (List ℚ)) :=
  if A.all (fun r => r.length = B.length) then
    .ok (A.map (fun r =>
      (List.range (colCount B)).map
        (fun j => (List.zipWith (fun x row => x * row.getD j 0) r B).sum)))
  else .error .shapeMismatch

/-- The transform matrix `mult` of `read_raw_segment` (lines 817-824): when
`raw.proj` holds, start from `diag(cals)`, multiply `comp[idx, :]` on the
left when compensation is present, then the projector on the left when
present; otherwise no transform. -/
def computeMult (raw : RawState) (idx : Option (List ℕ)) :
    Except RawErr (Option (List (List ℚ))) :=
  if raw.proj then
    let m0 := diagM raw.cals
    match raw.comp with
    | some c =>
      match matMul (rowSel idx c) m0 with
      | .error er => .error er
      | .ok m1 =>
        match raw.projector with
        | some p =>
          match matMul p m1 with
          | .error er => .error er
          | .ok m2 => .ok (some m2)
        | none => .ok (some m1)
    | none =>
      match raw.projector with
      | some p =>
        match matMul p m0 with
        | .error er => .error er
        | .ok m2 => .ok (some m2)
      | none => .ok (some m0)
  else .ok none

/-- Lines 848-852: with a transform, `one = np.dot(mult, one)` then
`one = one[idx]`; without, `one = cals[idx][:, None] * one[idx]`.  `cols`
is the decoded buffer as a list of columns of length `nchan`. -/
def applyTransform (mult : Option (List (List ℚ))) (idx : Option (List ℕ))
    (cals : List ℚ) (nchan : ℕ) (cols : List (List ℚ)) :
    Except RawErr (List (List ℚ)) :=
  match mult with
  | some m =>
    if m.all (fun r => r.length = nchan) then
      .ok (cols.map (fun col => selVec idx (matVec m col)))
    else .error .shapeMismatch
  | none =>
    .ok (cols.map (fun col =>
      List.zipWith (fun x y => x * y) (selVec idx cals) (selVec idx col)))

/-- The four picking cases of lines 855-879, with the debug letter of the
chosen branch (`W` whole buffer, `M` middle, `E` middle-to-end, `B`
beginning-to-middle).  Returns `(first_pick, last_pick, case)`. -/
inductive PickCase
  | W
  | M
  | E
  | B
deriving DecidableEq, Repr

def pickBounds (start stop first last nsamp : ℤ) : ℤ × ℤ × PickCase :=
  if stop - 1 > last ∧ start < first then (0, nsamp, .W)
  else if start ≥ first then
    if stop - 1 ≤ last then (start - first, nsamp + stop - last - 1, .M)
    else (start - first, nsamp, .E)
  else (0, stop - first, .B)

/-- Decode one directory entry (lines 833-852): a skip run becomes an
already-selected zero block; a real buffer is fetched with `read_tag`,
reshaped to `(nsamp, nchan)` (numpy raises on a size mismatch), transposed
to columns, and transformed.  Returns the decoded columns and the dtype
local variable `dtype` assigned by the real-buffer branch (if it was). -/
def decodeEntry (raw : RawState) (mult : Option (List (List ℚ)))
    (idx : Option (List ℕ)) (nsel : ℕ) (e : RawDirEntry) :
    Except RawErr (List (List ℚ) × Option DType) :=
  match e.ent with
  | none => .ok ((List.range e.nsamp.toNat).map (fun _ => List.replicate nsel 0), none)
  | some ent =>
    let tg := raw.fid ent.pos
    let dt := if tg.isReal then DType.float64 else DType.complex64
    if tg.data.length = e.nsamp.toNat * raw.nchan then
      let cols0 := (List.range e.nsamp.toNat).map
        (fun t => (List.range raw.nchan).map (fun c => tg.data.getD (t * raw.nchan + c) 0))
      match applyTransform mult idx raw.cals raw.nchan cols0 with
      | .error er => .error er
      | .ok cols1 => .ok (cols1, some dt)
    else .error .reshapeError

/-- State of the reconstruction loop: the last value assigned to the local
variable `dtype`, the dtype of the allocated destination (`none` while
`data is None`), and the columns copied so far. -/
structure LoopSt where
  dtypeVar : Option DType
  alloc : Option DType
  cols : List (List ℚ)
deriving DecidableEq, Repr

/-- The `for this in raw.rawdir` loop of `read_raw_segment` (lines
829-894).  An entry is decoded only when `this['last'] >= start`; a
positive pick allocates the destination on first use — referencing the
still-unassigned `dtype` local when the first copied entry is a skip run
is Python's `NameError` (`RawErr.dtypeUnbound`) — and appends the picked
column slice; the loop breaks once `this['last'] >= stop - 1`. -/
def readLoop (raw : RawState) (mult : Option (List (List ℚ)))
    (idx : Option (List ℕ)) (nsel : ℕ) (start stop : ℤ) :
    LoopSt → List RawDirEntry → Except RawErr LoopSt
  | st, [] => .ok st
  | st, e :: rest =>
    let step : Except RawErr LoopSt :=
      if start ≤ e.last then
        match decodeEntry raw mult idx nsel e with
        | .error er => .error er
        | .ok (one, dt) =>
          let st1 : LoopSt := ⟨(match dt with | some d => some d | none => st.dtypeVar),
            st.alloc, st.cols⟩
          let pb := pickBounds start stop e.first e.last e.nsamp
          let picksamp := pb.2.1 - pb.1
          if 0 < picksamp then
            match st1.alloc, st1.dtypeVar with
            | some d, _ =>
              .ok ⟨st1.dtypeVar, some d,
                st1.cols ++ (one.drop pb.1.toNat).take picksamp.toNat⟩
            | none, some d =>
              .ok ⟨st1.dtypeVar, some d,
                st1.cols ++ (one.drop pb.1.toNat).take picksamp.toNat⟩
            | none, none => .error .dtypeUnbound
          else .ok st1
      else .ok st
    match step with
    | .error er => .error er
    | .ok st2 => if stop - 1 ≤ e.last then .ok st2 else readLoop raw mult idx nsel start stop st2 rest

/-- Embeds `read_raw_segment(raw, start, stop, sel, data_buffer)` (lines 750-900).
The result is the matrix as a list of columns, the time vector, and the
handle after the `_update_projector` call.  `dataBuffer` is the caller's
preallocated destination, abstracted to its dtype and shape. -/
def readRawSegment (aH : List ℚ → ℕ) (sP : List Proj → Option (List (List ℚ)))
    (raw : RawState) (start0 : ℤ) (stop0 : Option ℤ) (sel : Option (List ℕ))
    (dataBuffer : Option (DType × ℕ × ℕ)) :
    Except RawErr (List (List ℚ) × List ℚ × RawState) :=
  let stopA := (stop0.getD (raw.last_samp + 1)) + raw.first_samp
  let startA := start0 + raw.first_samp
  let stopC := if raw.last_samp ≤ stopA then raw.last_samp + 1 else stopA
  if stopC ≤ startA then .error .noData
  else
    let nsel := match sel with
      | none => raw.nchan
      | some l => l.length
    let shapeOk : Except RawErr (Option DType) :=
      match dataBuffer with
      | some (d, r, c) =>
        if r = nsel ∧ (c : ℤ) = stopC - startA then .ok (some d) else .error .bufferShape
      | none => .ok none
    match shapeOk with
    | .error er => .error er
    | .ok alloc0 =>
      let raw1 := (updateProjector aH sP raw).2
      match computeMult raw1 sel with
      | .error er => .error er
      | .ok mult =>
        match readLoop raw1 mult sel nsel startA stopC ⟨none, alloc0, []⟩ raw1.rawdir with
        | .error er => .error er
        | .ok st =>
          let times := (List.range (stopC - startA).toNat).map
            (fun i => (((startA + i : ℤ) : ℚ) - (raw.first_samp : ℚ)) / raw.sfreq)
          .ok (st.cols, times, raw1)

/-- The data-and-times part of a read result (the matrix as columns and the
time vector), with the handle state projected away. -/
def readData (aH : List ℚ → ℕ) (sP : List Proj → Option (List (List ℚ)))
    (raw : RawState) (start0 : ℤ) (stop0 : Option ℤ) (sel : Option (List ℕ))
    (dataBuffer : Option (DType × ℕ × ℕ)) :
    Except RawErr (List (List ℚ) × List ℚ) :=
  (readRawSegment aH sP raw start0 stop0 sel dataBuffer).map (fun r => (r.1, r.2.1))

/-- Embeds `Raw.__getitem__` for a non-preloaded handle: expand a full channel
slice to `range(nchan)`, reject an empty channel list, and call
`read_raw_segment`. -/
def getitem (aH : List ℚ → ℕ) (sP : List Proj → Option (List (List ℚ)))
    (raw : RawState) (picks : Option (List ℕ)) (start stop : ℤ) :
    Except RawErr (List (List ℚ) × List ℚ × RawState) :=
  let sel := match picks with
    | none => List.range raw.nchan
    | some l => l
  if sel.length = 0 then .error .emptySel
  else readRawSegment aH sP raw start (some stop) (some sel) none

/-- Embeds `raw.info['projs'].extend([p])`: append one projection vector. -/
def addProj (raw : RawState) (p : Proj) : RawState :=
  { raw with projs := raw.projs ++ [p] }

/-- Trivial `array_hash` used by the concrete instances. -/
def aH0 : List ℚ → ℕ := fun _ => 0

/-- Trivial `setup_proj` used by the concrete instances. -/
def sP0 : List Proj → Option (List (List ℚ)) := fun _ => none

/-- One-channel handle whose directory is a skip run of 2 samples followed
by a real buffer of 3 samples. -/
def rawC2 : RawState :=
  { nchan := 1, sfreq := 1, filename := 0, cals := [1], chs := [⟨1, 1, 0⟩],
    first_samp := 0, last_samp := 4,
    rawdir := [⟨none, 0, 1, 2⟩, ⟨some ⟨.dataBuffer, .float32, 12, 7⟩, 2, 4, 3⟩],
    proj := false, comp := none, projs := [], projector := none, projector_hash := [],
    fid := fun _ => ⟨true, [1, 2, 3]⟩ }

/-- One-channel handle with a single 100-sample buffer whose stored sample
`t` has value `t`, with calibration 2. -/
def rawC5 : RawState :=
  { nchan := 1, sfreq := 1, filename := 0, cals := [2], chs := [⟨1, 2, 0⟩],
    first_samp := 0, last_samp := 99,
    rawdir := [⟨some ⟨.dataBuffer, .float32, 400, 0⟩, 0, 99, 100⟩],
    proj := false, comp := none, projs := [], projector := none, projector_hash := [],
    fid := fun _ => ⟨true, (List.range 100).map (fun t => (t : ℚ))⟩ }

/-- The `read_tag` oracle for the three-buffer recording: buffer `p` holds the
values `1000 p + t` for `t = 0, …, 99`. -/
def fidC3 : ℕ → Tag := fun p => ⟨true, (List.range 100).map (fun t => ((1000 * p + t : ℕ) : ℚ))⟩

/-- The directory entry of 100-sample buffer number `b`. -/
def bufC3 (b : ℕ) : RawDirEntry :=
  ⟨some ⟨.dataBuffer, .float32, 400, b⟩, 100 * b, 100 * b + 99, 100⟩

/-- One-channel handle over three 100-sample buffers with calibration 2 and
a parameterised directory. -/
def rawC3dir (d : List RawDirEntry) : RawState :=
  { nchan := 1, sfreq := 1, filename := 0, cals := [2], chs := [⟨1, 2, 0⟩],
    first_samp := 0, last_samp := 299, rawdir := d,
    proj := false, comp := none, projs := [], projector := none, projector_hash := [],
    fid := fidC3 }

/-- Two-channel handle with identity compensation and identity projector,
active projection, and a single one-sample buffer holding `[1, 2]`. -/
def rawC4 : RawState :=
  { nchan := 2, sfreq := 1, filename := 0, cals := [1, 1], chs := [⟨1, 1, 0⟩, ⟨1, 1, 0⟩],
    first_samp := 0, last_samp := 0,
    rawdir := [⟨some ⟨.dataBuffer, .float32, 8, 0⟩, 0, 0, 1⟩],
    proj := true, comp := some [[1, 0], [0, 1]], projs := [],
    projector := some [[1, 0], [0, 1]], projector_hash := [0],
    fid := fun _ => ⟨true, [1, 2]⟩ }

/-- Arguments of `Raw.save`. -/
structure SaveArgs where
  fname : ℕ
  picks : Option (List ℕ)
  tmin : ℚ
  tmax : Option ℚ
  buffer_size_sec : ℚ
  drop_small_buffer : Bool
  proj_active : Option Bool

/-- Modelled from the spec: `deactivate_proj` (the projection-math
collaborator's `deactivate(vectors) -> vectors'`, not under `src/`)
returns copies of the projection vectors with the active flag cleared. -/
def deactivateProj (projs : List Proj) : List Proj :=
  projs.map (fun p => { p with active := false })

/-- Embeds `info['chs'][k]['scanno'] = k + 1; info['chs'][k]['range'] = 1.0` for
every channel (lines 1002-1007), with `k` counting from the given start. -/
def resetChans : ℕ → List Chan → List Chan
  | _, [] => []
  | k, c :: rest => { c with scanno := k + 1, range := 1 } :: resetChans (k + 1) rest

/-- Embeds `start_writing_raw(name, info, sel)` as it affects the handle and the
returned calibration list (lines 948-1017): with `sel = None` the handle's
own `info` is mutated (scan numbers and ranges reset; the `cal` fields are
collected unchanged); with a selection the info is deep-copied first, so
the handle is unchanged and the calibrations come from the selected
channels of the copy. -/
def startWritingRaw (raw : RawState) (sel : Option (List ℕ)) : RawState × List ℚ :=
  match sel with
  | none =>
    ({ raw with chs := resetChans 0 raw.chs }, raw.chs.map (fun c => c.cal))
  | some l =>
    (raw, l.map (fun k => (raw.chs.getD k ⟨1, 1, 0⟩).cal))

/-- Embeds `write_raw_buffer(fid, buf, cals)` (lines 1020-1041): check the row
count of the buffer against the calibrations, then serialize
`buf / cals[:, None]`.  `nrows` is `buf.shape[0]`, the channel count of
the allocated destination. -/
def writeRawBuffer (buf : List (List ℚ)) (nrows : ℕ) (cals : List ℚ) :
    Except RawErr (List (List ℚ)) :=
  if nrows = cals.length then
    .ok (buf.map (fun col => List.zipWith (fun x c => x / c) col cals))
  else .error .calsMismatch

/-- Python's `range(start, stop, step)` for a positive step (the only case
`save` reaches with a positive buffer size; a non-positive step is not
modelled and yields the empty list). -/
def pyRange (start stop step : ℤ) : List ℤ :=
  if 0 < step then
    (List.range (((stop - start).toNat + step.toNat - 1) / step.toNat)).map
      (fun i => start + step * i)
  else []

/-- Output of a completed `save`: the written first-sample tag, the
`[first, last)` window passed to the segment reader for each sub-range,
and the encoded buffer appended for each. -/
structure SaveOut where
  firstSampTag : ℤ
  windows : List (ℤ × ℤ)
  written : List (List (List ℚ))
deriving DecidableEq, Repr

/-- The `for first in range(start, stop, buffer_size)` loop of `Raw.save`
(lines 689-706): clip the final window to `stop + 1`, read the sub-range
through `__getitem__`, break before writing when `drop_small_buffer` is
set and a non-initial window came back short, else divide by the
calibrations and append one encoded buffer.  On an aborted read the
returned handle keeps the state before that read (only the projector
cache fields could differ in Python, which no operation here reads). -/
def saveLoop (aH : List ℚ → ℕ) (sP : List Proj → Option (List (List ℚ)))
    (picks : Option (List ℕ)) (cals : List ℚ) (nsel : ℕ) (startv stop bsize : ℤ)
    (dropSmall : Bool) :
    RawState → List ℤ → RawState × Except RawErr (List (ℤ × ℤ) × List (List (List ℚ)))
  | raw, [] => (raw, .ok ([], []))
  | raw, f :: rest =>
    let lastv := if stop ≤ f + bsize then stop + 1 else f + bsize
    match getitem aH sP raw picks f lastv with
    | .error er => (raw, .error er)
    | .ok (dataM, times, raw2) =>
      if dropSmall ∧ startv < f ∧ (times.length : ℤ) < bsize then
        (raw2, .ok ([], []))
      else
        match writeRawBuffer dataM nsel cals with
        | .error er => (raw2, .error er)
        | .ok buf =>
          match saveLoop aH sP picks cals nsel startv stop bsize dropSmall raw2 rest with
          | (raw3, .error er) => (raw3, .error er)
          | (raw3, .ok (ws, bs)) => (raw3, .ok ((f, lastv) :: ws, buf :: bs))

/-- The handle after deactivation (when projections are saved inactive) and
the `start_writing_raw` info mutation — the state from which every read of
the save loop happens. -/
def saveRaw2 (raw0 : RawState) (args : SaveArgs) : RawState :=
  (startWritingRaw
    (if args.proj_active.getD raw0.proj then raw0
     else { raw0 with projs := deactivateProj raw0.projs }) args.picks).1

/-- The calibration list returned by `start_writing_raw` inside `save`. -/
def saveCals (raw0 : RawState) (args : SaveArgs) : List ℚ :=
  (startWritingRaw
    (if args.proj_active.getD raw0.proj then raw0
     else { raw0 with projs := deactivateProj raw0.projs }) args.picks).2

/-- Embeds `start = int(floor(tmin * sfreq))` (line 676). -/
def saveStart (raw0 : RawState) (args : SaveArgs) : ℤ :=
  ⌊args.tmin * (saveRaw2 raw0 args).sfreq⌋

/-- The value `stop` (lines 679-682): `last_samp + 1 - first_samp` when `tmax` is
omitted, else `int(floor(tmax * sfreq))`. -/
def saveStop (raw0 : RawState) (args : SaveArgs) : ℤ :=
  match args.tmax with
  | none => (saveRaw2 raw0 args).last_samp + 1 - (saveRaw2 raw0 args).first_samp
  | some t => ⌊t * (saveRaw2 raw0 args).sfreq⌋

/-- Embeds `buffer_size = int(ceil(buffer_size_sec * sfreq))` (line 684). -/
def saveBufSize (raw0 : RawState) (args : SaveArgs) : ℤ :=
  ⌈args.buffer_size_sec * (saveRaw2 raw0 args).sfreq⌉

/-- The channel count of each read buffer (`nchan` for a full save, the
number of picked channels otherwise). -/
def saveNsel (raw0 : RawState) (args : SaveArgs) : ℕ :=
  match args.picks with
  | none => (saveRaw2 raw0 args).nchan
  | some l => l.length

/-- Embeds `Raw.save` (lines 623-708) as a state transformer: the handle state
after the call, together with the writing outcome. -/
def save (aH : List ℚ → ℕ) (sP : List Proj → Option (List (List ℚ)))
    (raw0 : RawState) (args : SaveArgs) : RawState × Except RawErr SaveOut :=
  if args.fname = raw0.filename then (raw0, .error .identicalDest)
  else
    match saveLoop aH sP args.picks (saveCals raw0 args) (saveNsel raw0 args)
        (saveStart raw0 args) (saveStop raw0 args) (saveBufSize raw0 args)
        args.drop_small_buffer (saveRaw2 raw0 args)
        (pyRange (saveStart raw0 args) (saveStop raw0 args) (saveBufSize raw0 args)) with
    | (raw3, .error er) => (raw3, .error er)
    | (raw3, .ok (ws, bs)) =>
      (raw3, .ok ⟨(saveRaw2 raw0 args).first_samp + saveStart raw0 args, ws, bs⟩)

/-- The handle fields that the save path must leave unchanged. -/
def sameCore (a b : RawState) : Prop :=
  a.rawdir = b.rawdir ∧ a.cals = b.cals ∧ a.first_samp = b.first_samp ∧
  a.last_samp = b.last_samp ∧ a.chs = b.chs ∧ a.projs = b.projs

/-- Two-buffer recording (200 samples at 100 Hz) with unit calibration,
each stored sample 1. -/
def rawC9 : RawState :=
  { nchan := 1, sfreq := 100, filename := 0, cals := [1], chs := [⟨1, 1, 0⟩],
    first_samp := 0, last_samp := 199,
    rawdir := [⟨some ⟨.dataBuffer, .float32, 400, 0⟩, 0, 99, 100⟩,
               ⟨some ⟨.dataBuffer, .float32, 400, 1⟩, 100, 199, 100⟩],
    proj := false, comp := none, projs := [], projector := none, projector_hash := [],
    fid := fun _ => ⟨true, List.replicate 100 1⟩ }

/-- Save of the first second (`tmax = 1`, so `stop = 100`) in one-second
buffers (`buffer_size = 100`). -/
def argsC9 : SaveArgs :=
  { fname := 1, picks := none, tmin := 0, tmax := some 1, buffer_size_sec := 1,
    drop_small_buffer := false, proj_active := none }

/-- Two-sample recording with calibration 3 and one active projection
vector; the stored samples are 5 and 7. -/
def rawC10w : RawState :=
  { nchan := 1, sfreq := 1, filename := 0, cals := [3], chs := [⟨5, 3, 9⟩],
    first_samp := 0, last_samp := 1,
    rawdir := [⟨some ⟨.dataBuffer, .float32, 8, 0⟩, 0, 1, 2⟩],
    proj := false, comp := none, projs := [⟨[1, 2], true⟩], projector := none,
    projector_hash := [0],
    fid := fun _ => ⟨true, [5, 7]⟩ }

/-- A full save of `rawC10w` (two-second buffers, `tmax = 2`). -/
def argsC10w : SaveArgs :=
  { fname := 1, picks := none, tmin := 0, tmax := some 2, buffer_size_sec := 2,
    drop_small_buffer := false, proj_active := none }

/-! ## Theorems

Invariants of the directory builder (C1, C6, C7), the projector cache
(C8), the segment reader (C2, C3, C4, C5) and the save path (C9, C10),
with their supporting lemmas, witnesses and counterexamples. -/

theorem chainFrom_append {l1 l2 : List RawDirEntry} {b c : ℤ} :
    ∀ {a : ℤ}, chainFrom a l1 b → chainFrom b l2 c → chainFrom a (l1 ++ l2) c := by
  induction l1 with
  | nil =>
    intro a h1 h2
    simp only [chainFrom] at h1
    subst h1
    simpa using h2
  | cons e rest ih =>
    intro a h1 h2
    exact ⟨h1.1, h1.2.1, h1.2.2.1, ih h1.2.2.2 h2⟩

theorem stepFold_inv {st : ScanState} {n : ℤ} (hinv : ScanInv st) :
    ScanInv (stepFold st n) := by
  unfold stepFold
  split_ifs with hfs
  · have hnil := hinv.2 hfs
    refine ⟨?_, fun _ => hnil⟩
    simp only [hnil, chainFrom]
  · exact hinv

theorem stepFold_first_skip_le (st : ScanState) (n : ℤ) :
    (stepFold st n).first_skip ≤ 0 := by
  unfold stepFold
  split_ifs with hfs
  · exact le_rfl
  · exact not_lt.mp hfs

theorem stepSkip_inv {st : ScanState} {n : ℤ} (hn : 0 ≤ n) (hfs : st.first_skip ≤ 0)
    (hinv : ScanInv st) : ScanInv (stepSkip st n) := by
  unfold stepSkip
  split_ifs with hk
  · refine ⟨chainFrom_append hinv.1 ⟨rfl, mul_nonneg hk.le hn, rfl, rfl⟩,
      fun h0 => absurd h0 (not_lt.mpr hfs)⟩
  · exact hinv

theorem stepSkip_first_skip (st : ScanState) (n : ℤ) :
    (stepSkip st n).first_skip = st.first_skip := by
  unfold stepSkip
  split_ifs <;> rfl

theorem stepBuf_inv {st : ScanState} {ent : DirEnt} {n : ℤ} (hn : 0 ≤ n)
    (hfs : st.first_skip ≤ 0) (hinv : ScanInv st) : ScanInv (stepBuf st ent n) :=
  ⟨chainFrom_append hinv.1 ⟨rfl, hn, rfl, rfl⟩, fun h0 => absurd h0 (not_lt.mpr hfs)⟩

theorem processEnt_inv {nchan : ℕ} {tI : ℕ → ℤ} {st : ScanState} {e : DirEnt}
    {st2 : ScanState} (h : processEnt nchan tI st e = .ok st2) (hinv : ScanInv st) :
    ScanInv st2 := by
  unfold processEnt at h
  by_cases hk1 : e.kind = .dataSkip
  · rw [if_pos hk1] at h
    cases h
    exact ⟨hinv.1, hinv.2⟩
  · rw [if_neg hk1] at h
    by_cases hk2 : e.kind = .dataBuffer
    · rw [if_pos hk2] at h
      cases hbps : bytesPerSample e.type with
      | none =>
        simp only [hbps] at h
        exact Except.noConfusion h
      | some bps =>
        simp only [hbps] at h
        by_cases hn0 : nchan = 0
        · rw [if_pos hn0] at h
          cases h
        · rw [if_neg hn0] at h
          cases h
          exact stepBuf_inv (Int.ofNat_nonneg _)
            (by rw [stepSkip_first_skip]; exact stepFold_first_skip_le _ _)
            (stepSkip_inv (Int.ofNat_nonneg _) (stepFold_first_skip_le _ _)
              (stepFold_inv hinv))
    · rw [if_neg hk2] at h
      cases h
      exact hinv

theorem scanTags_inv {nchan : ℕ} {tI : ℕ → ℤ} :
    ∀ {l : List DirEnt} {st st2 : ScanState},
      scanTags nchan tI st l = .ok st2 → ScanInv st → ScanInv st2 := by
  intro l
  induction l with
  | nil =>
    intro st st2 h hinv
    cases h
    exact hinv
  | cons e rest ih =>
    intro st st2 h hinv
    unfold scanTags at h
    cases hp : processEnt nchan tI st e with
    | error er => rw [hp] at h; cases h
    | ok st1 =>
      rw [hp] at h
      exact ih h (processEnt_inv hp hinv)

theorem chainFrom_props {l : List RawDirEntry} :
    ∀ {a c : ℤ}, chainFrom a l c →
      (∀ e ∈ l, 0 ≤ e.nsamp ∧ e.last - e.first + 1 = e.nsamp) ∧
      List.Chain' (fun p q => q.first = p.last + 1 ∧ p.first ≤ q.first) l ∧
      (l.map RawDirEntry.nsamp).sum = c - a ∧
      (∀ e, l.head? = some e → e.first = a) ∧
      (∀ e, l.getLast? = some e → e.last = c - 1) ∧
      (l = [] → c = a) := by
  induction l with
  | nil =>
    intro a c h
    simp only [chainFrom] at h
    subst h
    simp
  | cons e rest ih =>
    intro a c h
    obtain ⟨hf, hn, hl, hrest⟩ := h
    obtain ⟨ihmem, ihchain, ihsum, ihhead, ihlast, ihnil⟩ := ih hrest
    refine ⟨?_, ?_, ?_, ?_, ?_, ?_⟩
    · intro x hx
      rcases List.mem_cons.mp hx with rfl | hx
      · exact ⟨hn, by omega⟩
      · exact ihmem x hx
    · refine List.chain'_cons'.mpr ⟨?_, ihchain⟩
      intro y hy
      have hy1 := ihhead y (Option.mem_def.mp hy)
      constructor
      · omega
      · omega
    · simp only [List.map_cons, List.sum_cons, ihsum]
      ring
    · intro x hx
      simp only [List.head?_cons, Option.some.injEq] at hx
      rw [← hx, hf]
    · intro x hx
      cases rest with
      | nil =>
        simp only [List.getLast?_singleton, Option.some.injEq] at hx
        have hc : c = a + e.nsamp := hrest
        subst hx
        omega
      | cons y ys =>
        rw [List.getLast?_cons_cons] at hx
        exact ihlast x hx
    · intro h0
      cases h0

theorem finishScan_sound {nchan : ℕ} {tI : ℕ → ℤ} {fs fskip : ℤ} {rest : List DirEnt}
    {st : RawOpenResult} (h : finishScan nchan tI fs fskip rest = .ok st) : dirSound st := by
  unfold finishScan at h
  cases hs : scanTags nchan tI ⟨fs, fs, fskip, 0, []⟩ rest with
  | error er => rw [hs] at h; cases h
  | ok st1 =>
    rw [hs] at h
    cases h
    have hinv0 : ScanInv ⟨fs, fs, fskip, 0, []⟩ := ⟨rfl, fun _ => rfl⟩
    have hinv := scanTags_inv hs hinv0
    obtain ⟨hmem, hchain, hsum, hhead, hlast, hnil⟩ := chainFrom_props hinv.1
    refine ⟨hmem, hchain.imp fun _ _ hpq => hpq.1, hchain.imp fun _ _ hpq => hpq.2,
      by rw [hsum]; ring, hhead, fun e he => hlast e he, fun h0 => ?_⟩
    have h1 := hnil h0
    show st1.cursor - 1 = st1.first_samp_attr - 1
    omega

/-- C1: every directory produced by `Raw.__init__` is sorted by first
sample and contiguous — each entry satisfies `last - first + 1 = nsamp`,
consecutive entries satisfy `next.first = prev.last + 1` (no overlap, no
gap) — the sum of `nsamp` over all entries equals
`last_samp - first_samp + 1`, the entries span `[first_samp, last_samp]`,
and an empty directory is valid with `last_samp = first_samp - 1`. -/
theorem c1_directory_invariant {nchan : ℕ} {tI : ℕ → ℤ} {directory : List DirEnt}
    {st : RawOpenResult} (h : buildRawDir nchan tI directory = .ok st) : dirSound st := by
  cases directory with
  | nil => simp [buildRawDir] at h
  | cons e0 r0 =>
    cases r0 with
    | nil =>
      simp only [buildRawDir] at h
      by_cases h1 : e0.kind = .firstSample
      · rw [if_pos h1] at h
        exact Except.noConfusion h
      · rw [if_neg h1] at h
        by_cases h2 : e0.kind = .dataSkip
        · rw [if_pos h2] at h
          exact finishScan_sound h
        · rw [if_neg h2] at h
          exact finishScan_sound h
    | cons e1 r1 =>
      simp only [buildRawDir] at h
      by_cases h1 : e0.kind = .firstSample
      · rw [if_pos h1] at h
        by_cases hk : e1.kind = .dataSkip
        · rw [if_pos hk] at h
          exact finishScan_sound h
        · rw [if_neg hk] at h
          exact finishScan_sound h
      · rw [if_neg h1] at h
        by_cases h2 : e0.kind = .dataSkip
        · rw [if_pos h2] at h
          exact finishScan_sound h
        · rw [if_neg h2] at h
          exact finishScan_sound h

theorem scanTags_cons_ok {nchan : ℕ} {tI : ℕ → ℤ} {st st1 : ScanState} {e : DirEnt}
    {rest : List DirEnt} (h : processEnt nchan tI st e = .ok st1) :
    scanTags nchan tI st (e :: rest) = scanTags nchan tI st1 rest := by
  show (match processEnt nchan tI st e with
    | (Except.error er : Except RawErr ScanState) => (Except.error er : Except RawErr ScanState)
    | Except.ok st2 => scanTags nchan tI st2 rest) = scanTags nchan tI st1 rest
  rw [h]

theorem scanTags_cons_error {nchan : ℕ} {tI : ℕ → ℤ} {st : ScanState} {e : DirEnt}
    {er : RawErr} {rest : List DirEnt} (h : processEnt nchan tI st e = .error er) :
    scanTags nchan tI st (e :: rest) = .error er := by
  show (match processEnt nchan tI st e with
    | (Except.error er2 : Except RawErr ScanState) => (Except.error er2 : Except RawErr ScanState)
    | Except.ok st2 => scanTags nchan tI st2 rest) = Except.error er
  rw [h]

theorem stepSkip_extend (st : ScanState) (n : ℤ) :
    (stepSkip st n).first_samp_attr = st.first_samp_attr ∧
    (stepSkip st n).first_skip = st.first_skip ∧
    ∃ t, (stepSkip st n).rawdir = st.rawdir ++ t := by
  unfold stepSkip
  split_ifs
  · exact ⟨rfl, rfl, ⟨_, rfl⟩⟩
  · exact ⟨rfl, rfl, ⟨[], by simp⟩⟩

theorem processEnt_extend {nchan : ℕ} {tI : ℕ → ℤ} {st : ScanState} {e : DirEnt}
    {st2 : ScanState} (hfs : st.first_skip ≤ 0) (h : processEnt nchan tI st e = .ok st2) :
    st2.first_samp_attr = st.first_samp_attr ∧ st2.first_skip ≤ 0 ∧
      ∃ t, st2.rawdir = st.rawdir ++ t := by
  unfold processEnt at h
  by_cases hk1 : e.kind = .dataSkip
  · rw [if_pos hk1] at h
    cases h
    exact ⟨rfl, hfs, ⟨[], by simp⟩⟩
  · rw [if_neg hk1] at h
    by_cases hk2 : e.kind = .dataBuffer
    · rw [if_pos hk2] at h
      cases hbps : bytesPerSample e.type with
      | none =>
        simp only [hbps] at h
        exact Except.noConfusion h
      | some bps =>
        simp only [hbps] at h
        by_cases hn0 : nchan = 0
        · rw [if_pos hn0] at h
          exact Except.noConfusion h
        · rw [if_neg hn0] at h
          cases h
          have hfold : stepFold st ((e.size / (bps * nchan) : ℕ) : ℤ) = st := by
            unfold stepFold
            rw [if_neg (not_lt.mpr hfs)]
          rw [hfold]
          obtain ⟨ha, hf, t, hr⟩ := stepSkip_extend st ((e.size / (bps * nchan) : ℕ) : ℤ)
          refine ⟨ha, by rw [show (stepBuf _ e _).first_skip =
            (stepSkip st _).first_skip from rfl, hf]; exact hfs, ?_⟩
          exact ⟨t ++ [⟨some e, (stepSkip st _).cursor, (stepSkip st _).cursor +
            ((e.size / (bps * nchan) : ℕ) : ℤ) - 1, ((e.size / (bps * nchan) : ℕ) : ℤ)⟩],
            by rw [show (stepBuf _ e _).rawdir = (stepSkip st _).rawdir ++ _ from rfl, hr,
              List.append_assoc]⟩
    · rw [if_neg hk2] at h
      cases h
      exact ⟨rfl, hfs, ⟨[], by simp⟩⟩

theorem scanTags_extend {nchan : ℕ} {tI : ℕ → ℤ} :
    ∀ {l : List DirEnt} {st st2 : ScanState}, st.first_skip ≤ 0 →
      scanTags nchan tI st l = .ok st2 →
      st2.first_samp_attr = st.first_samp_attr ∧ ∃ t, st2.rawdir = st.rawdir ++ t := by
  intro l
  induction l with
  | nil =>
    intro st st2 hfs h
    cases h
    exact ⟨rfl, ⟨[], by simp⟩⟩
  | cons e rest ih =>
    intro st st2 hfs h
    unfold scanTags at h
    cases hp : processEnt nchan tI st e with
    | error er =>
      rw [hp] at h
      exact Except.noConfusion h
    | ok st1 =>
      rw [hp] at h
      obtain ⟨ha, hf, t1, hr⟩ := processEnt_extend hfs hp
      obtain ⟨ha2, t2, hr2⟩ := ih hf h
      exact ⟨ha2.trans ha, ⟨t1 ++ t2, by rw [hr2, hr, List.append_assoc]⟩⟩

/-- C6: for a tag stream beginning with a first-sample marker of value `s`,
a data-skip marker of count `k ≥ 0` and a first data buffer of `n` samples,
the constructed handle has `first_samp = s + n * k`, its first directory
entry is the real buffer spanning `[s + n * k, s + n * k + n - 1]`, and no
skip-run entry is emitted for the initial skip (the head of the directory
is the real buffer itself). -/
theorem c6_deferred_initial_skip {nchan : ℕ} {tI : ℕ → ℤ} {e0 e1 e2 : DirEnt}
    {rest : List DirEnt} {s k n : ℤ} {bps : ℕ} {st : RawOpenResult}
    (h0 : e0.kind = .firstSample) (h1 : e1.kind = .dataSkip) (h2 : e2.kind = .dataBuffer)
    (hb : bytesPerSample e2.type = some bps) (hn : nchan ≠ 0)
    (hs : tI e0.pos = s) (hk : tI e1.pos = k) (hk0 : 0 ≤ k)
    (hnv : n = ((e2.size / (bps * nchan) : ℕ) : ℤ))
    (hok : buildRawDir nchan tI (e0 :: e1 :: e2 :: rest) = .ok st) :
    st.first_samp = s + n * k ∧
      st.rawdir.head? = some ⟨some e2, s + n * k, s + n * k + n - 1, n⟩ := by
  have hne2 : ¬ e2.kind = TagKind.dataSkip := by
    rw [h2]
    decide
  have hpe : processEnt nchan tI ⟨s, s, k, 0, []⟩ e2 =
      .ok ⟨s + n * k, s + n * k + n, 0, 0, [⟨some e2, s + n * k, s + n * k + n - 1, n⟩]⟩ := by
    unfold processEnt
    rw [if_neg hne2, if_pos h2]
    simp only [hb]
    rw [if_neg hn, ← hnv]
    rcases lt_or_eq_of_le hk0 with hkpos | hkz
    · unfold stepFold stepSkip stepBuf
      simp only [hkpos, if_pos, if_true]
      norm_num
    · unfold stepFold stepSkip stepBuf
      simp only [← hkz]
      norm_num
  simp only [buildRawDir] at hok
  rw [if_pos h0, if_pos h1, hs, hk] at hok
  unfold finishScan at hok
  rw [scanTags_cons_ok hpe] at hok
  cases hsc : scanTags nchan tI
      ⟨s + n * k, s + n * k + n, 0, 0, [⟨some e2, s + n * k, s + n * k + n - 1, n⟩]⟩ rest with
  | error er =>
    rw [hsc] at hok
    exact Except.noConfusion hok
  | ok stf =>
    rw [hsc] at hok
    cases hok
    obtain ⟨ha, t, hr⟩ := scanTags_extend le_rfl hsc
    refine ⟨ha, ?_⟩
    rw [hr]
    simp

theorem processEnt_bad {nchan : ℕ} {tI : ℕ → ℤ} (st : ScanState) {e : DirEnt}
    (hkind : e.kind = .dataBuffer) (htype : bytesPerSample e.type = none) :
    processEnt nchan tI st e = .error (.unsupported true) := by
  unfold processEnt
  have hne : ¬ e.kind = TagKind.dataSkip := by
    rw [hkind]
    decide
  rw [if_neg hne, if_pos hkind]
  simp only [htype]

theorem processEnt_ok_of_good {nchan : ℕ} {tI : ℕ → ℤ} (st : ScanState) (e : DirEnt)
    (hn : nchan ≠ 0) (hgood : ¬(e.kind = .dataBuffer ∧ bytesPerSample e.type = none)) :
    ∃ st2, processEnt nchan tI st e = .ok st2 := by
  unfold processEnt
  by_cases hk1 : e.kind = .dataSkip
  · rw [if_pos hk1]
    exact ⟨_, rfl⟩
  · rw [if_neg hk1]
    by_cases hk2 : e.kind = .dataBuffer
    · rw [if_pos hk2]
      cases hbps : bytesPerSample e.type with
      | none => exact absurd ⟨hk2, hbps⟩ hgood
      | some bps =>
        simp only [hbps]
        rw [if_neg hn]
        exact ⟨_, rfl⟩
    · rw [if_neg hk2]
      exact ⟨_, rfl⟩

theorem scanTags_bad {nchan : ℕ} {tI : ℕ → ℤ} (hn : nchan ≠ 0) :
    ∀ {l : List DirEnt} {st : ScanState},
      (∃ e ∈ l, e.kind = .dataBuffer ∧ bytesPerSample e.type = none) →
      scanTags nchan tI st l = .error (.unsupported true) := by
  intro l
  induction l with
  | nil =>
    intro st h
    obtain ⟨e, he, _⟩ := h
    cases he
  | cons e rest ih =>
    intro st h
    by_cases hbad : e.kind = .dataBuffer ∧ bytesPerSample e.type = none
    · exact scanTags_cons_error (processEnt_bad st hbad.1 hbad.2)
    · obtain ⟨x, hx, hxbad⟩ := h
      have hxr : x ∈ rest := by
        rcases List.mem_cons.mp hx with rfl | hxr
        · exact absurd hxbad hbad
        · exact hxr
      obtain ⟨st1, hst1⟩ := processEnt_ok_of_good st e hn hbad
      rw [scanTags_cons_ok hst1]
      exact ih ⟨x, hxr, hxbad⟩

theorem finishScan_bad {nchan : ℕ} {tI : ℕ → ℤ} {e : DirEnt} (hn : nchan ≠ 0)
    (hkind : e.kind = .dataBuffer) (htype : bytesPerSample e.type = none)
    (fs fskip : ℤ) (l : List DirEnt) (hel : e ∈ l) :
    finishScan nchan tI fs fskip l = .error (.unsupported true) := by
  unfold finishScan
  simp only [scanTags_bad hn ⟨e, hel, hkind, htype⟩]

/-- C7: a data-buffer tag whose value type lies outside the five supported
encodings makes directory building fail with the unsupported-encoding error,
with the file handle closed (`fidClosed = true`) and no partial handle
returned (the whole open is an `Except.error`). -/
theorem c7_unsupported_encoding {nchan : ℕ} {tI : ℕ → ℤ} {directory : List DirEnt}
    {e : DirEnt} (hn : nchan ≠ 0) (he : e ∈ directory)
    (hkind : e.kind = .dataBuffer) (htype : bytesPerSample e.type = none) :
    buildRawDir nchan tI directory = .error (.unsupported true) := by
  have hne0 : ∀ x : DirEnt, x.kind = .firstSample → e ≠ x := by
    intro x hx heq
    rw [heq, hx] at hkind
    exact TagKind.noConfusion hkind
  have hne1 : ∀ x : DirEnt, x.kind = .dataSkip → e ≠ x := by
    intro x hx heq
    rw [heq, hx] at hkind
    exact TagKind.noConfusion hkind
  cases directory with
  | nil => cases he
  | cons e0 r0 =>
    cases r0 with
    | nil =>
      simp only [buildRawDir]
      by_cases h1 : e0.kind = .firstSample
      · exact absurd (List.mem_singleton.mp he) (hne0 e0 h1)
      · rw [if_neg h1]
        have he0 : e = e0 := List.mem_singleton.mp he
        by_cases h2 : e0.kind = .dataSkip
        · exact absurd he0 (hne1 e0 h2)
        · rw [if_neg h2]
          exact finishScan_bad hn hkind htype _ _ _ (by simp [he0])
    | cons e1 r1 =>
      simp only [buildRawDir]
      by_cases h1 : e0.kind = .firstSample
      · rw [if_pos h1]
        have her : e ∈ e1 :: r1 := by
          rcases List.mem_cons.mp he with rfl | her
          · exact absurd rfl (hne0 _ h1)
          · exact her
        by_cases hk : e1.kind = .dataSkip
        · rw [if_pos hk]
          have her1 : e ∈ r1 := by
            rcases List.mem_cons.mp her with rfl | her1
            · exact absurd rfl (hne1 _ hk)
            · exact her1
          exact finishScan_bad hn hkind htype _ _ _ her1
        · rw [if_neg hk]
          exact finishScan_bad hn hkind htype _ _ _ her
      · rw [if_neg h1]
        by_cases h2 : e0.kind = .dataSkip
        · rw [if_pos h2]
          have her : e ∈ e1 :: r1 := by
            rcases List.mem_cons.mp he with rfl | her
            · exact absurd rfl (hne1 _ h2)
            · exact her
          exact finishScan_bad hn hkind htype _ _ _ her
        · rw [if_neg h2]
          exact finishScan_bad hn hkind htype _ _ _ he

/-- Witness for C1: the invariant holds for the directory built from the
concrete stream `dirW`. -/
theorem c1_directory_invariant_witness : dirSound ⟨16, 23, rawdirW⟩ :=
  c1_directory_invariant (rfl : buildRawDir 1 tIw dirW = .ok ⟨16, 23, rawdirW⟩)

/-- Witness for C6 at the concrete stream `dirW`: `s = 10`, `k = 3`,
`n = 8 / (4 * 1) = 2`, so `first_samp = 10 + 2 * 3 = 16` and the head entry
is the real buffer `[16, 17]`. -/
theorem c6_deferred_initial_skip_witness :
    (⟨16, 23, rawdirW⟩ : RawOpenResult).first_samp = 10 + 2 * 3 ∧
      (⟨16, 23, rawdirW⟩ : RawOpenResult).rawdir.head? =
        some ⟨some ⟨.dataBuffer, .float32, 8, 2⟩, 10 + 2 * 3, 10 + 2 * 3 + 2 - 1, 2⟩ :=
  @c6_deferred_initial_skip 1 tIw ⟨.firstSample, .int32, 4, 0⟩ ⟨.dataSkip, .int32, 4, 1⟩
    ⟨.dataBuffer, .float32, 8, 2⟩ [⟨.dataSkip, .int32, 4, 3⟩, ⟨.dataBuffer, .float32, 8, 4⟩]
    10 3 2 4 ⟨16, 23, rawdirW⟩ rfl rfl rfl rfl (by decide) (by decide) (by decide)
    (by decide) (by decide) rfl

/-- Witness for C7: a single buffer tag of unsupported type 99 aborts the
open with the unsupported-encoding error and the file closed. -/
theorem c7_unsupported_encoding_witness :
    buildRawDir 1 tIw [⟨.dataBuffer, .otherT 99, 8, 2⟩] = .error (.unsupported true) :=
  @c7_unsupported_encoding 1 tIw [⟨.dataBuffer, .otherT 99, 8, 2⟩]
    ⟨.dataBuffer, .otherT 99, 8, 2⟩ (by decide) (List.mem_singleton.mpr rfl) rfl rfl

theorem updateProjector_stable (aH : List ℚ → ℕ) (sP : List Proj → Option (List (List ℚ)))
    (raw : RawState) :
    hashProjs aH (updateProjector aH sP raw).2.projs (updateProjector aH sP raw).2.projector =
      (updateProjector aH sP raw).2.projector_hash := by
  simp only [updateProjector]
  split_ifs with h
  · exact h
  · rfl

theorem updateProjector_of_stable {aH : List ℚ → ℕ} {sP : List Proj → Option (List (List ℚ))}
    {raw : RawState} (h : hashProjs aH raw.projs raw.projector = raw.projector_hash) :
    updateProjector aH sP raw = (false, raw) := by
  simp only [updateProjector]
  rw [if_pos h]

theorem updateProjector_of_unstable {aH : List ℚ → ℕ} {sP : List Proj → Option (List (List ℚ))}
    {raw : RawState} (h : ¬ hashProjs aH raw.projs raw.projector = raw.projector_hash) :
    updateProjector aH sP raw =
      (true,
        { raw with
            projector := sP raw.projs
            projector_hash := hashProjs aH raw.projs (sP raw.projs) }) := by
  simp only [updateProjector]
  rw [if_neg h]

theorem hashProjs_length (aH : List ℚ → ℕ) (projs : List Proj)
    (projector : Option (List (List ℚ))) :
    (hashProjs aH projs projector).length =
      projs.length + (match projector with | some _ => 1 | none => 0) := by
  unfold hashProjs
  cases projector <;> simp

theorem updateProjector_add_one {aH : List ℚ → ℕ} {sP : List Proj → Option (List (List ℚ))}
    {r1 : RawState} (hstable : hashProjs aH r1.projs r1.projector = r1.projector_hash)
    (p : Proj) :
    (updateProjector aH sP (addProj r1 p)).1 = true ∧
    (updateProjector aH sP (addProj r1 p)).2.projector = sP (r1.projs ++ [p]) ∧
    (updateProjector aH sP (addProj r1 p)).2.projector_hash =
      hashProjs aH (r1.projs ++ [p]) (sP (r1.projs ++ [p])) ∧
    updateProjector aH sP (updateProjector aH sP (addProj r1 p)).2 =
      (false, (updateProjector aH sP (addProj r1 p)).2) := by
  have hne : ¬ hashProjs aH (addProj r1 p).projs (addProj r1 p).projector =
      (addProj r1 p).projector_hash := by
    intro hcon
    have hcon2 : hashProjs aH (r1.projs ++ [p]) r1.projector = r1.projector_hash := hcon
    rw [← hstable] at hcon2
    have hlen := congrArg List.length hcon2
    rw [hashProjs_length, hashProjs_length, List.length_append] at hlen
    cases r1.projector <;> simp at hlen
  have hupd := @updateProjector_of_unstable aH sP (addProj r1 p) hne
  refine ⟨?_, ?_, ?_, ?_⟩
  · rw [hupd]
  · rw [hupd]
    rfl
  · rw [hupd]
    rfl
  · rw [hupd]
    exact updateProjector_of_stable rfl

/-- C8: projector rebuild is idempotent — immediately after a call to
`_update_projector`, a second call with `info['projs']` unchanged
recomputes nothing: it returns `False` and leaves operator and hash
identical; whereas appending one projection vector to `info['projs']`
makes the next call recompute exactly once — it returns `True`, sets the
operator to the `setup_proj` result and stores the new hash, and the call
after that returns `False` with the state unchanged again. -/
theorem c8_projector_cache (aH : List ℚ → ℕ) (sP : List Proj → Option (List (List ℚ)))
    (raw : RawState) :
    updateProjector aH sP (updateProjector aH sP raw).2 =
      (false, (updateProjector aH sP raw).2) ∧
    ∀ p : Proj,
      (updateProjector aH sP (addProj (updateProjector aH sP raw).2 p)).1 = true ∧
      (updateProjector aH sP (addProj (updateProjector aH sP raw).2 p)).2.projector =
        sP ((updateProjector aH sP raw).2.projs ++ [p]) ∧
      (updateProjector aH sP (addProj (updateProjector aH sP raw).2 p)).2.projector_hash =
        hashProjs aH ((updateProjector aH sP raw).2.projs ++ [p])
          (sP ((updateProjector aH sP raw).2.projs ++ [p])) ∧
      updateProjector aH sP
          (updateProjector aH sP (addProj (updateProjector aH sP raw).2 p)).2 =
        (false, (updateProjector aH sP (addProj (updateProjector aH sP raw).2 p)).2) :=
  ⟨updateProjector_of_stable (updateProjector_stable aH sP raw),
   fun p => updateProjector_add_one (updateProjector_stable aH sP raw) p⟩

/-- C2 (code bug): for a directory consisting of a skip run of length 2
followed by a real buffer of length 3, reading the full span with no
caller-supplied destination crashes with the unbound-`dtype` NameError
instead of returning 2 zero columns followed by the 3 decoded columns —
the destination is allocated at the first copied entry, which is the skip
run, before any real buffer has assigned `dtype`. -/
theorem c2_skip_first_dtype_crash :
    readRawSegment aH0 sP0 rawC2 0 none none none = .error .dtypeUnbound := rfl

/-- C5 (counterexample): at `s = last_samp - first_samp = 99` the clamp
`stop >= last_samp → stop = last_samp + 1` widens the empty window, so
`start == stop == 99` returns the one-column matrix of sample 99 instead
of raising the no-data error. -/
theorem c5_start_eq_stop_counterexample :
    readRawSegment aH0 sP0 rawC5 99 (some 99) none none =
      .ok ([[(198 : ℚ)]], [(99 : ℚ)], rawC5) ∧
    ∀ er : RawErr, readRawSegment aH0 sP0 rawC5 99 (some 99) none none ≠ .error er := by
  have h1 : readRawSegment aH0 sP0 rawC5 99 (some 99) none none =
      .ok ([[(198 : ℚ)]], [(99 : ℚ)], rawC5) := rfl
  exact ⟨h1, fun er h => Except.noConfusion (h1.symm.trans h)⟩

/-- C5 (amended): `read_raw_segment` with `start == stop == s` raises the
no-data error exactly for `s + first_samp ≠ last_samp`; at
`s + first_samp = last_samp` the clamp `stop >= last_samp → stop =
last_samp + 1` widens the window to one sample instead. -/
theorem c5_empty_window_amended (aH : List ℚ → ℕ) (sP : List Proj → Option (List (List ℚ)))
    (raw : RawState) (s : ℤ) (sel : Option (List ℕ)) (db : Option (DType × ℕ × ℕ))
    (h : s + raw.first_samp ≠ raw.last_samp) :
    readRawSegment aH sP raw s (some s) sel db = .error .noData := by
  unfold readRawSegment
  simp only [Option.getD_some]
  by_cases hcl : raw.last_samp ≤ s + raw.first_samp
  · rw [if_pos hcl]
    rw [if_pos (by omega : raw.last_samp + 1 ≤ s + raw.first_samp)]
  · rw [if_neg hcl]
    rw [if_pos (le_refl (s + raw.first_samp))]

/-- Witness for the amended C5 at `s = 42` on `rawC5`. -/
theorem c5_empty_window_amended_witness :
    readRawSegment aH0 sP0 rawC5 42 (some 42) none none = .error .noData :=
  c5_empty_window_amended aH0 sP0 rawC5 42 none none (by decide)

/-- C3: with `first_samp = 0` and three 100-sample real buffers from sample
0, reading `[50, 150)` returns exactly 100 columns: columns 0..49 are the
calibrated samples 50..99 of entry 0 and columns 50..99 the calibrated
samples 100..149 of entry 1; entry 0 is picked by the middle-to-end case
`E` with bounds `(50, 100)` and entry 1 by the beginning-to-middle case
`B` with bounds `(0, 50)`; scanning stops at entry 1 — the result is the
same for every third directory entry, which is never examined. -/
theorem c3_partial_overlap_picking :
    (∀ e3 : RawDirEntry,
      readData aH0 sP0 (rawC3dir [bufC3 0, bufC3 1, e3]) 50 (some 150) none none =
        .ok (((List.range 50).map (fun j => [2 * ((1000 * 0 + (50 + j) : ℕ) : ℚ)])) ++
             ((List.range 50).map (fun j => [2 * ((1000 * 1 + j : ℕ) : ℚ)])),
          (List.range 100).map (fun j => ((50 + j : ℕ) : ℚ)))) ∧
    pickBounds 50 150 0 99 100 = (50, 100, .E) ∧
    pickBounds 50 150 100 199 100 = (0, 50, .B) := by
  refine ⟨fun e3 => ?_, by decide, by decide⟩
  have he : readData aH0 sP0 (rawC3dir [bufC3 0, bufC3 1, e3]) 50 (some 150) none none =
      readData aH0 sP0 (rawC3dir [bufC3 0, bufC3 1, bufC3 2]) 50 (some 150) none none := rfl
  rw [he]
  decide

/-- C4 (counterexample): with compensation and projection both present and
the strict channel selection `[0]` out of 2 channels, the read fails with
a shape mismatch — the code builds `projector · comp[idx, :] ·
diag(cals)`, i.e. it restricts the compensation rows to the selection
before the projector multiply — instead of multiplying the buffer by
`projector · comp · diag(cals)` and selecting rows of the transformed
full-channel result; with the full selection the same read succeeds. -/
theorem c4_comp_selection_counterexample :
    readRawSegment aH0 sP0 rawC4 0 (some 1) (some [0]) none = .error .shapeMismatch ∧
    readRawSegment aH0 sP0 rawC4 0 (some 1) none none =
      .ok ([[(1 : ℚ), 2]], [(0 : ℚ)], rawC4) := ⟨rfl, rfl⟩

/-- C4 (amended): per decoded buffer the transform is built from the
present factors only, with calibration innermost: `diag(cals)` alone, then
— when compensation is present — the compensation with its rows restricted
to the channel selection (`comp[idx, :]`), then the projector on the left;
the channel selection is applied (again) to the transformed result, and
when no transform is active calibration is applied element-wise to the
selected rows only. -/
theorem c4_transform_composition_amended (raw : RawState) (idx : Option (List ℕ)) :
    (raw.proj = false → computeMult raw idx = .ok none) ∧
    (∀ C P CD, raw.proj = true → raw.comp = some C → raw.projector = some P →
      matMul (rowSel idx C) (diagM raw.cals) = .ok CD →
      computeMult raw idx = (matMul P CD).map some) ∧
    (∀ C CD, raw.proj = true → raw.comp = some C → raw.projector = none →
      matMul (rowSel idx C) (diagM raw.cals) = .ok CD →
      computeMult raw idx = .ok (some CD)) ∧
    (∀ C er, raw.proj = true → raw.comp = some C →
      matMul (rowSel idx C) (diagM raw.cals) = .error er →
      computeMult raw idx = .error er) ∧
    (∀ P, raw.proj = true → raw.comp = none → raw.projector = some P →
      computeMult raw idx = (matMul P (diagM raw.cals)).map some) ∧
    (raw.proj = true → raw.comp = none → raw.projector = none →
      computeMult raw idx = .ok (some (diagM raw.cals))) ∧
    (∀ M cols nchan, M.all (fun r => r.length = nchan) = true →
      applyTransform (some M) idx raw.cals nchan cols =
        .ok (cols.map (fun col => selVec idx (matVec M col)))) ∧
    (∀ cols nchan, applyTransform none idx raw.cals nchan cols =
      .ok (cols.map (fun col =>
        List.zipWith (fun x y => x * y) (selVec idx raw.cals) (selVec idx col)))) := by
  refine ⟨?_, ?_, ?_, ?_, ?_, ?_, ?_, ?_⟩
  · intro hp
    unfold computeMult
    rw [hp]
    rfl
  · intro C P CD hp hc hpr hcd
    unfold computeMult
    simp only [hp, hc, hpr, hcd, if_true]
    cases hM : matMul P CD <;> simp [Except.map]
  · intro C CD hp hc hpr hcd
    unfold computeMult
    simp only [hp, hc, hpr, hcd, if_true]
  · intro C er hp hc hcd
    unfold computeMult
    simp only [hp, hc, hcd, if_true]
  · intro P hp hc hpr
    unfold computeMult
    simp only [hp, hc, hpr, if_true]
    cases hM : matMul P (diagM raw.cals) <;> simp [Except.map]
  · intro hp hc hpr
    unfold computeMult
    simp only [hp, hc, hpr, if_true]
  · intro M cols nchan hall
    unfold applyTransform
    simp only [hall, if_true]
  · intro cols nchan
    rfl

/-- Witness for the amended C4 on `rawC4`: the both-present branch returns
the chained product with the compensation rows restricted to `[0]`, and
the no-transform branch is element-wise calibration of the selected rows. -/
theorem c4_transform_composition_amended_witness :
    computeMult rawC4 (some [0]) =
      (matMul [[(1 : ℚ), 0], [0, 1]] [[(1 : ℚ), 0]]).map some ∧
    applyTransform none (some [0]) rawC4.cals 2 [[3, 5]] =
      .ok ([[(3 : ℚ), 5]].map (fun col => List.zipWith (fun x y => x * y)
        (selVec (some [0]) rawC4.cals) (selVec (some [0]) col))) :=
  ⟨(c4_transform_composition_amended rawC4 (some [0])).2.1 [[1, 0], [0, 1]] [[1, 0], [0, 1]]
      [[1, 0]] rfl rfl rfl (by decide),
   (c4_transform_composition_amended rawC4 (some [0])).2.2.2.2.2.2.2 [[3, 5]] 2⟩

theorem sameCore_refl (a : RawState) : sameCore a a :=
  ⟨rfl, rfl, rfl, rfl, rfl, rfl⟩

theorem sameCore_trans {a b c : RawState} (h1 : sameCore a b) (h2 : sameCore b c) :
    sameCore a c := by
  obtain ⟨x1, x2, x3, x4, x5, x6⟩ := h1
  obtain ⟨y1, y2, y3, y4, y5, y6⟩ := h2
  exact ⟨x1.trans y1, x2.trans y2, x3.trans y3, x4.trans y4, x5.trans y5, x6.trans y6⟩

theorem updateProjector_sameCore (aH : List ℚ → ℕ) (sP : List Proj → Option (List (List ℚ)))
    (raw : RawState) : sameCore (updateProjector aH sP raw).2 raw := by
  simp only [updateProjector]
  split_ifs <;> exact ⟨rfl, rfl, rfl, rfl, rfl, rfl⟩

theorem readRawSegment_state {aH : List ℚ → ℕ} {sP : List Proj → Option (List (List ℚ))}
    {raw : RawState} {start0 : ℤ} {stop0 : Option ℤ} {sel : Option (List ℕ)}
    {db : Option (DType × ℕ × ℕ)} {r : List (List ℚ) × List ℚ × RawState}
    (h : readRawSegment aH sP raw start0 stop0 sel db = .ok r) :
    r.2.2 = (updateProjector aH sP raw).2 := by
  simp only [readRawSegment] at h
  repeat' split at h
  all_goals
    first
    | exact Except.noConfusion h
    | (cases h; rfl)

theorem getitem_state {aH : List ℚ → ℕ} {sP : List Proj → Option (List (List ℚ))}
    {raw : RawState} {picks : Option (List ℕ)} {start stop : ℤ}
    {r : List (List ℚ) × List ℚ × RawState}
    (h : getitem aH sP raw picks start stop = .ok r) :
    r.2.2 = (updateProjector aH sP raw).2 := by
  simp only [getitem] at h
  repeat' split at h
  all_goals
    first
    | exact Except.noConfusion h
    | exact readRawSegment_state h

theorem saveLoop_sameCore (aH : List ℚ → ℕ) (sP : List Proj → Option (List (List ℚ)))
    (picks : Option (List ℕ)) (cals : List ℚ) (nsel : ℕ) (startv stop bsize : ℤ)
    (dropSmall : Bool) :
    ∀ (fs : List ℤ) (raw : RawState),
      sameCore (saveLoop aH sP picks cals nsel startv stop bsize dropSmall raw fs).1 raw := by
  intro fs
  induction fs with
  | nil =>
    intro raw
    exact sameCore_refl raw
  | cons f rest ih =>
    intro raw
    unfold saveLoop
    generalize (if stop ≤ f + bsize then stop + 1 else f + bsize : ℤ) = lastv
    cases hg : getitem aH sP raw picks f lastv with
    | error er =>
      simp only [hg]
      exact sameCore_refl raw
    | ok r =>
      obtain ⟨dataM, times, raw2⟩ := r
      have hcore2 : sameCore raw2 raw := by
        have h2 := getitem_state hg
        simp only at h2
        rw [h2]
        exact updateProjector_sameCore aH sP raw
      simp only [hg]
      split_ifs with hdrop
      · exact hcore2
      · cases hw : writeRawBuffer dataM nsel cals with
        | error er =>
          simp only [hw]
          exact hcore2
        | ok buf =>
          simp only [hw]
          have h3 := ih raw2
          cases hsl : saveLoop aH sP picks cals nsel startv stop bsize dropSmall raw2 rest with
          | mk raw3 res =>
            rw [hsl] at h3
            cases res with
            | error er =>
              simp only [hsl]
              exact sameCore_trans h3 hcore2
            | ok p =>
              obtain ⟨ws, bs⟩ := p
              simp only [hsl]
              exact sameCore_trans h3 hcore2

theorem resetChans_range : ∀ (k : ℕ) (l : List Chan), ∀ c ∈ resetChans k l, c.range = 1 := by
  intro k l
  induction l generalizing k with
  | nil =>
    intro c hc
    cases hc
  | cons x xs ih =>
    intro c hc
    rcases List.mem_cons.mp hc with rfl | hc2
    · rfl
    · exact ih _ c hc2

theorem saveRaw2_fields (raw0 : RawState) (args : SaveArgs) :
    (saveRaw2 raw0 args).rawdir = raw0.rawdir ∧
    (saveRaw2 raw0 args).cals = raw0.cals ∧
    (saveRaw2 raw0 args).first_samp = raw0.first_samp ∧
    (saveRaw2 raw0 args).last_samp = raw0.last_samp ∧
    (saveRaw2 raw0 args).projs =
      (if args.proj_active.getD raw0.proj then raw0.projs else deactivateProj raw0.projs) ∧
    (saveRaw2 raw0 args).chs =
      (match args.picks with
       | none => resetChans 0 raw0.chs
       | some _ => raw0.chs) ∧
    (saveRaw2 raw0 args).projector = raw0.projector ∧
    (saveRaw2 raw0 args).projector_hash = raw0.projector_hash := by
  unfold saveRaw2 startWritingRaw
  cases args.picks <;> split_ifs <;>
    exact ⟨rfl, rfl, rfl, rfl, rfl, rfl, rfl, rfl⟩

/-- C10: `save` is not read-only on the source handle.  With projections
saved inactive (`proj_active = some false`, or `proj_active = none` while
`self.proj` is false) the handle's `info['projs']` is replaced by
deactivated copies; with `picks = None` every channel's range in the
handle's info is additionally set to 1.0, while a given `picks` leaves the
handle's channels unchanged (the info is deep-copied only in that case);
the directory, the cals vector, `first_samp` and `last_samp` are unchanged
in every case. -/
theorem c10_save_frame_effect (aH : List ℚ → ℕ) (sP : List Proj → Option (List (List ℚ)))
    (raw0 : RawState) (args : SaveArgs) (hf : args.fname ≠ raw0.filename) :
    ((args.proj_active = some false ∨ (args.proj_active = none ∧ raw0.proj = false)) →
      (save aH sP raw0 args).1.projs = deactivateProj raw0.projs) ∧
    (args.picks = none → ∀ c ∈ (save aH sP raw0 args).1.chs, c.range = 1) ∧
    (∀ l, args.picks = some l → (save aH sP raw0 args).1.chs = raw0.chs) ∧
    (save aH sP raw0 args).1.rawdir = raw0.rawdir ∧
    (save aH sP raw0 args).1.cals = raw0.cals ∧
    (save aH sP raw0 args).1.first_samp = raw0.first_samp ∧
    (save aH sP raw0 args).1.last_samp = raw0.last_samp := by
  have hcore : sameCore (save aH sP raw0 args).1 (saveRaw2 raw0 args) := by
    unfold save
    rw [if_neg hf]
    have h3 := saveLoop_sameCore aH sP args.picks (saveCals raw0 args) (saveNsel raw0 args)
      (saveStart raw0 args) (saveStop raw0 args) (saveBufSize raw0 args)
      args.drop_small_buffer
      (pyRange (saveStart raw0 args) (saveStop raw0 args) (saveBufSize raw0 args))
      (saveRaw2 raw0 args)
    cases hsl : saveLoop aH sP args.picks (saveCals raw0 args) (saveNsel raw0 args)
        (saveStart raw0 args) (saveStop raw0 args) (saveBufSize raw0 args)
        args.drop_small_buffer (saveRaw2 raw0 args)
        (pyRange (saveStart raw0 args) (saveStop raw0 args) (saveBufSize raw0 args)) with
    | mk raw3 res =>
      rw [hsl] at h3
      cases res with
      | error er =>
        simp only [hsl]
        exact h3
      | ok p =>
        obtain ⟨ws, bs⟩ := p
        simp only [hsl]
        exact h3
  obtain ⟨hrd, hcl, hfs, hls, hchs, hprojs⟩ := hcore
  obtain ⟨frd, fcl, ffs, fls, fprojs, fchs, _, _⟩ := saveRaw2_fields raw0 args
  refine ⟨?_, ?_, ?_, hrd.trans frd, hcl.trans fcl, hfs.trans ffs, hls.trans fls⟩
  · intro hpa
    rw [hprojs, fprojs]
    have hfalse : args.proj_active.getD raw0.proj = false := by
      rcases hpa with h1 | ⟨h1, h2⟩
      · rw [h1]
        rfl
      · rw [h1, Option.getD_none, h2]
    rw [hfalse]
    simp
  · intro hp c hc
    rw [hchs, fchs, hp] at hc
    exact resetChans_range 0 raw0.chs c hc
  · intro l hp
    rw [hchs, fchs, hp]

theorem hashProjs_deactivate (aH : List ℚ → ℕ) (projs : List Proj)
    (projector : Option (List (List ℚ))) :
    hashProjs aH (deactivateProj projs) projector = hashProjs aH projs projector := by
  unfold hashProjs deactivateProj
  rw [List.map_map]
  rfl

theorem saveRaw2_stable {aH : List ℚ → ℕ} {raw0 : RawState} {args : SaveArgs}
    (hstable : hashProjs aH raw0.projs raw0.projector = raw0.projector_hash) :
    hashProjs aH (saveRaw2 raw0 args).projs (saveRaw2 raw0 args).projector =
      (saveRaw2 raw0 args).projector_hash := by
  obtain ⟨_, _, _, _, hprojs, _, hproj, hhash⟩ := saveRaw2_fields raw0 args
  rw [hprojs, hproj, hhash]
  split_ifs
  · exact hstable
  · rw [hashProjs_deactivate]
    exact hstable

theorem getitem_stable {aH : List ℚ → ℕ} {sP : List Proj → Option (List (List ℚ))}
    {raw : RawState} {picks : Option (List ℕ)} {start stop : ℤ}
    {dataM : List (List ℚ)} {times : List ℚ} {raw2 : RawState}
    (hstable : hashProjs aH raw.projs raw.projector = raw.projector_hash)
    (h : getitem aH sP raw picks start stop = .ok (dataM, times, raw2)) :
    raw2 = raw := by
  have h2 := getitem_state h
  rw [updateProjector_of_stable hstable] at h2
  exact h2

theorem saveLoop_ok_spec {aH : List ℚ → ℕ} {sP : List Proj → Option (List (List ℚ))}
    {picks : Option (List ℕ)} {cals : List ℚ} {nsel : ℕ} {startv stop bsize : ℤ}
    {raw : RawState}
    (hstable : hashProjs aH raw.projs raw.projector = raw.projector_hash) :
    ∀ {fs : List ℤ} {rawX : RawState} {ws : List (ℤ × ℤ)} {bs : List (List (List ℚ))},
      saveLoop aH sP picks cals nsel startv stop bsize false raw fs = (rawX, .ok (ws, bs)) →
      ws = fs.map (fun f => (f, if stop ≤ f + bsize then stop + 1 else f + bsize)) ∧
      List.Forall₂ (fun (w : ℤ × ℤ) buf => ∃ dataM ts,
        getitem aH sP raw picks w.1 w.2 = .ok (dataM, ts, raw) ∧
        writeRawBuffer dataM nsel cals = .ok buf) ws bs := by
  intro fs
  induction fs with
  | nil =>
    intro rawX ws bs h
    unfold saveLoop at h
    cases h
    exact ⟨rfl, List.Forall₂.nil⟩
  | cons f rest ih =>
    intro rawX ws bs h
    simp only [saveLoop, Bool.false_eq_true, false_and, if_false] at h
    cases hg : getitem aH sP raw picks f
        (if stop ≤ f + bsize then stop + 1 else f + bsize) with
    | error er =>
      simp only [hg] at h
      cases h
    | ok r =>
      obtain ⟨dataM, times, raw2⟩ := r
      have hraw2 : raw2 = raw := getitem_stable hstable hg
      rw [hraw2] at hg
      simp only [hg] at h
      cases hw : writeRawBuffer dataM nsel cals with
      | error er =>
        simp only [hw] at h
        cases h
      | ok buf =>
        simp only [hw] at h
        cases hsl : saveLoop aH sP picks cals nsel startv stop bsize false raw rest with
        | mk raw3 res =>
          simp only [hsl] at h
          cases res with
          | error er => cases h
          | ok p =>
            obtain ⟨ws2, bs2⟩ := p
            cases h
            obtain ⟨hws, hfa⟩ := ih hsl
            refine ⟨?_, ?_⟩
            · rw [List.map_cons, hws]
            · exact List.Forall₂.cons ⟨dataM, times, hg, hw⟩ hfa

/-- C9 (amended): a successful `save` with `drop_small_buffer` off writes
the data as successive sub-ranges of `buffer_size = ceil(buffer_size_sec *
sfreq)` samples starting from `start = floor(tmin * sfreq)`, each obtained
through the segment reader and divided by the calibration factors before
serializing, one encoded buffer per sub-range; but the final sub-range is
not clipped to the requested end: whenever `first + buffer_size >= stop`
the read window becomes `[first, stop + 1)` — one sample past the
requested end — instead of the claimed `[first, min(first + buffer_size,
stop))`. -/
theorem c9_save_chunking_amended (aH : List ℚ → ℕ) (sP : List Proj → Option (List (List ℚ)))
    (raw0 : RawState) (args : SaveArgs) (out : SaveOut)
    (hf : args.fname ≠ raw0.filename)
    (hdrop : args.drop_small_buffer = false)
    (hstable : hashProjs aH raw0.projs raw0.projector = raw0.projector_hash)
    (hok : (save aH sP raw0 args).2 = .ok out) :
    out.firstSampTag = (saveRaw2 raw0 args).first_samp + saveStart raw0 args ∧
    saveStart raw0 args = ⌊args.tmin * (saveRaw2 raw0 args).sfreq⌋ ∧
    saveBufSize raw0 args = ⌈args.buffer_size_sec * (saveRaw2 raw0 args).sfreq⌉ ∧
    out.windows =
      (pyRange (saveStart raw0 args) (saveStop raw0 args) (saveBufSize raw0 args)).map
        (fun f => (f, if saveStop raw0 args ≤ f + saveBufSize raw0 args
          then saveStop raw0 args + 1 else f + saveBufSize raw0 args)) ∧
    List.Forall₂ (fun (w : ℤ × ℤ) buf => ∃ dataM ts,
      getitem aH sP (saveRaw2 raw0 args) args.picks w.1 w.2 =
        .ok (dataM, ts, saveRaw2 raw0 args) ∧
      writeRawBuffer dataM (saveNsel raw0 args) (saveCals raw0 args) = .ok buf)
      out.windows out.written := by
  unfold save at hok
  rw [if_neg hf, hdrop] at hok
  cases hsl : saveLoop aH sP args.picks (saveCals raw0 args) (saveNsel raw0 args)
      (saveStart raw0 args) (saveStop raw0 args) (saveBufSize raw0 args) false
      (saveRaw2 raw0 args)
      (pyRange (saveStart raw0 args) (saveStop raw0 args) (saveBufSize raw0 args)) with
  | mk raw3 res =>
    rw [hsl] at hok
    cases res with
    | error er => cases hok
    | ok p =>
      obtain ⟨ws, bs⟩ := p
      cases hok
      obtain ⟨hws, hfa⟩ := saveLoop_ok_spec (saveRaw2_stable hstable) hsl
      exact ⟨rfl, rfl, rfl, hws, hfa⟩

/-- C9 (counterexample): for `start = 0`, `stop = 100`, `buffer_size =
100`, the single sub-range is read over the window `[0, 101)` — the code
sets `last = stop + 1` whenever `first + buffer_size >= stop` — and the
written buffer has 101 columns, not the 100 columns of the claimed window
`[first, min(first + buffer_size, stop)) = [0, 100)`. -/
theorem c9_window_clip_counterexample :
    (save aH0 sP0 rawC9 argsC9).2.map (fun o => o.windows) = .ok [((0 : ℤ), (101 : ℤ))] ∧
    (save aH0 sP0 rawC9 argsC9).2.map (fun o => o.written.map List.length) = .ok [101] ∧
    ¬((101 : ℤ) = min ((0 : ℤ) + 100) 100) := by
  exact ⟨by decide, by decide, by decide⟩

/-- Witness for C9 on `rawC10w`: one window `[0, 3)` (`stop + 1` with
`stop = 2`), whose read result divided by the calibrations is the single
written buffer. -/
theorem c9_save_chunking_amended_witness :
    (⟨0, [(0, 3)], [[[5], [7]]]⟩ : SaveOut).firstSampTag =
      (saveRaw2 rawC10w argsC10w).first_samp + saveStart rawC10w argsC10w ∧
    saveStart rawC10w argsC10w = ⌊argsC10w.tmin * (saveRaw2 rawC10w argsC10w).sfreq⌋ ∧
    saveBufSize rawC10w argsC10w =
      ⌈argsC10w.buffer_size_sec * (saveRaw2 rawC10w argsC10w).sfreq⌉ ∧
    (⟨0, [(0, 3)], [[[5], [7]]]⟩ : SaveOut).windows =
      (pyRange (saveStart rawC10w argsC10w) (saveStop rawC10w argsC10w)
        (saveBufSize rawC10w argsC10w)).map
        (fun f => (f, if saveStop rawC10w argsC10w ≤ f + saveBufSize rawC10w argsC10w
          then saveStop rawC10w argsC10w + 1 else f + saveBufSize rawC10w argsC10w)) ∧
    List.Forall₂ (fun (w : ℤ × ℤ) buf => ∃ dataM ts,
      getitem aH0 sP0 (saveRaw2 rawC10w argsC10w) argsC10w.picks w.1 w.2 =
        .ok (dataM, ts, saveRaw2 rawC10w argsC10w) ∧
      writeRawBuffer dataM (saveNsel rawC10w argsC10w) (saveCals rawC10w argsC10w) = .ok buf)
      (⟨0, [(0, 3)], [[[5], [7]]]⟩ : SaveOut).windows
      (⟨0, [(0, 3)], [[[5], [7]]]⟩ : SaveOut).written :=
  c9_save_chunking_amended aH0 sP0 rawC10w argsC10w ⟨0, [(0, 3)], [[[5], [7]]]⟩
    (by decide) rfl rfl (by decide)

/-- Witness for C10 on `rawC10w` (projections off, `picks = None`): the
projs are deactivated, every range becomes 1, and directory, cals and
sample bounds are untouched. -/
theorem c10_save_frame_effect_witness :
    ((argsC10w.proj_active = some false ∨
        (argsC10w.proj_active = none ∧ rawC10w.proj = false)) →
      (save aH0 sP0 rawC10w argsC10w).1.projs = deactivateProj rawC10w.projs) ∧
    (argsC10w.picks = none →
      ∀ c ∈ (save aH0 sP0 rawC10w argsC10w).1.chs, c.range = 1) ∧
    (∀ l, argsC10w.picks = some l → (save aH0 sP0 rawC10w argsC10w).1.chs = rawC10w.chs) ∧
    (save aH0 sP0 rawC10w argsC10w).1.rawdir = rawC10w.rawdir ∧
    (save aH0 sP0 rawC10w argsC10w).1.cals = rawC10w.cals ∧
    (save aH0 sP0 rawC10w argsC10w).1.first_samp = rawC10w.first_samp ∧
    (save aH0 sP0 rawC10w argsC10w).1.last_samp = rawC10w.last_samp :=
  c10_save_frame_effect aH0 sP0 rawC10w argsC10w (by decide)

end MneRaw
